import Mathlib

/-!
Verification of the pollsweb data model and of the poll tallying design.

The first part embeds the Go data model of models.go: validation of voters
and majority configurations (ozzo-validation semantics: a Required rule
fails on a zero value, Min/Max and RuneLength rules skip empty values, and
a struct validates iff every field rule passes), the majority database
string round-trip, and id generation.  Validation results are modelled as
Bool, true standing for a nil error.

The second part models the tallying engine of the specification (majority
rule satisfaction and the Schulze strongest-path engine); that code is not
part of this repository (it lives in the external gopolls dependency), so
those definitions are modelled from the specification text.

Go strings are modelled as List Char (one Char per rune), uint32 values as
Nat with explicit bounds where they matter.
-/

/-- The uuid of models.go, modelled as a natural number; uuid.Nil is 0. -/
abbrev UUIDv := Nat

/-- uuid.Nil, the zero uuid. -/
def uuidNil : UUIDv := 0

/-- BaseModel of models.go: the embedded id carrier. -/
structure BaseModel where
  ID : UUIDv
deriving DecidableEq

/-- The error type of uuid.NewRandom, modelled opaquely as one failure case. -/
inductive RandErr where
  | failed
deriving DecidableEq

/-- The errors BaseModel.GenerateID can return: the sentinel ErrIDAlreadySet
of models.go, or a wrapped uuid generation failure. -/
inductive GenIDError where
  | idAlreadySet
  | randomFailed (e : RandErr)
deriving DecidableEq

/-- ErrIDAlreadySet of models.go. -/
def ErrIDAlreadySet : GenIDError := GenIDError.idAlreadySet

/-- BaseModel.GenerateID of models.go.  The outcome of the uuid.NewRandom
call is passed in explicitly (rand); the Go method mutates its receiver, so
the embedding returns the updated model next to the (uuid, error) pair. -/
def BaseModel.GenerateID (model : BaseModel) (rand : Except RandErr UUIDv) :
    (UUIDv × Option GenIDError) × BaseModel :=
  if model.ID ≠ uuidNil then
    ((uuidNil, some ErrIDAlreadySet), model)
  else
    match rand with
    | Except.error e => ((uuidNil, some (GenIDError.randomFailed e)), model)
    | Except.ok id => ((id, none), { model with ID := id })

/-- nameAndSlugFieldValidator of models.go: validation.Required together
with validation.RuneLength 2 250.  Required fails on the empty string;
RuneLength skips empty values and otherwise demands a rune count between 2
and 250.  True means the field passes. -/
def nameAndSlugFieldOk (s : List Char) : Bool :=
  !s.isEmpty && (s.isEmpty || decide (2 ≤ s.length ∧ s.length ≤ 250))

/-- VoterModel of models.go (the embedded BaseModel kept as a field). -/
structure VoterModel where
  base : BaseModel
  Name : List Char
  Slug : List Char
  Weight : Nat
deriving DecidableEq

/-- VoterModel.Validate of models.go: name and slug through
nameAndSlugFieldValidator, and the weight through validation.Required
(fails on 0) and validation.Max (uint32 (2147483647-2)) which skips the
empty value 0.  True means a nil error. -/
def VoterModel.Validate (voter : VoterModel) : Bool :=
  nameAndSlugFieldOk voter.Name &&
  nameAndSlugFieldOk voter.Slug &&
  (decide (voter.Weight ≠ 0) &&
    (voter.Weight == 0 || decide (voter.Weight ≤ 2147483647 - 2)))

/-- MajorityModel of models.go: a numerator and denominator, both uint32. -/
structure MajorityModel where
  Numerator : Nat
  Denominator : Nat
deriving DecidableEq

/-- MajorityModel.Validate of models.go: each of Numerator and Denominator
through validation.Required (fails on 0), validation.Min (uint32 1) and
validation.Max (uint32 (2147483647-2)), the threshold rules skipping the
empty value 0.  True means a nil error. -/
def MajorityModel.Validate (majority : MajorityModel) : Bool :=
  (decide (majority.Numerator ≠ 0) &&
    (majority.Numerator == 0 || decide (1 ≤ majority.Numerator)) &&
    (majority.Numerator == 0 || decide (majority.Numerator ≤ 2147483647 - 2))) &&
  (decide (majority.Denominator ≠ 0) &&
    (majority.Denominator == 0 || decide (1 ≤ majority.Denominator)) &&
    (majority.Denominator == 0 || decide (majority.Denominator ≤ 2147483647 - 2)))

/-- The decimal digit characters used by the fmt %d verb. -/
def digitChar : Nat → Char
  | 0 => '0'
  | 1 => '1'
  | 2 => '2'
  | 3 => '3'
  | 4 => '4'
  | 5 => '5'
  | 6 => '6'
  | 7 => '7'
  | 8 => '8'
  | 9 => '9'
  | _ => '*'

/-- Decimal formatting, most significant digit first, prepended to acc. -/
def toDecAux (n : Nat) (acc : List Char) : List Char :=
  if h : n < 10 then digitChar n :: acc
  else toDecAux (n / 10) (digitChar (n % 10) :: acc)
decreasing_by exact Nat.div_lt_self (by omega) (by omega)

/-- The decimal representation of n, as the fmt %d verb prints it. -/
def natToDec (n : Nat) : List Char := toDecAux n []

/-- MajorityModel.FormatDBString of models.go: numerator, a slash, then the
denominator, both in decimal. -/
def MajorityModel.FormatDBString (majority : MajorityModel) : List Char :=
  natToDec majority.Numerator ++ '/' :: natToDec majority.Denominator

/-- The digit value of a character as strconv.ParseUint base 10 reads it:
some value for the characters between 0 and 9, none otherwise. -/
def digitVal (c : Char) : Option Nat :=
  if 48 ≤ c.toNat ∧ c.toNat ≤ 57 then some (c.toNat - 48) else none

/-- The digit-accumulation loop of strconv.ParseUint: fails on the first
non-digit character, otherwise accumulates base 10 onto acc. -/
def parseDigitsAux (acc : Nat) : List Char → Option Nat
  | [] => some acc
  | c :: rest =>
    match digitVal c with
    | some d => parseDigitsAux (acc * 10 + d) rest
    | none => none

/-- strconv.ParseUint with base 10 and bitSize 32, as called by
ParseMajorityModelDBString: an error (none) on an empty string, on a
non-digit character, and on a value that does not fit in 32 bits. -/
def goParseUint32 (s : List Char) : Option Nat :=
  if s = [] then none
  else
    match parseDigitsAux 0 s with
    | none => none
    | some v => if v < 4294967296 then some v else none

/-- strings.Split with the one-character separator slash, as used by
ParseMajorityModelDBString. -/
def splitOnSlash : List Char → List (List Char)
  | [] => [[]]
  | c :: rest =>
    if c = '/' then [] :: splitOnSlash rest
    else
      match splitOnSlash rest with
      | [] => [[c]]
      | p :: ps => (c :: p) :: ps

/-- ParseMajorityModelDBString of models.go: split on the slash, demand
exactly two parts, parse each with strconv.ParseUint base 10 bitSize 32,
and build the model without any further check. -/
def ParseMajorityModelDBString (s : List Char) : Option MajorityModel :=
  match splitOnSlash s with
  | [a, b] =>
    match goParseUint32 a, goParseUint32 b with
    | some numerator, some denominator => some ⟨numerator, denominator⟩
    | _, _ => none
  | _ => none

/-- Modelled from the spec: the MajorityRule record of section 3 of the
specification (the tallying engine lives in the external gopolls dependency
and is not part of this repository): a required fraction
numerator/denominator, both int64, and whether the majority is measured
against all eligible votes (absolute) or only against valid votes. -/
structure MajorityRule where
  numerator : Int
  denominator : Int
  absolute : Bool
deriving DecidableEq

/-- Modelled from the spec: IsSatisfied of section 4.1 (the tallying engine
is not part of this repository).  With no valid votes the rule is never
satisfied; otherwise the comparison achievedWeight * denominator greater or
equal numerator * eligibleWeight (absolute) respectively
numerator * totalValidWeight (relative) is decided by exact integer
cross-multiplication. -/
def MajorityRule.IsSatisfied (rule : MajorityRule)
    (achievedWeight eligibleWeight totalValidWeight : Int) : Bool :=
  if totalValidWeight = 0 then false
  else if rule.absolute then
    decide (achievedWeight * rule.denominator ≥ rule.numerator * eligibleWeight)
  else
    decide (achievedWeight * rule.denominator ≥ rule.numerator * totalValidWeight)

/-- A square matrix of path or preference strengths, indexed by option. -/
abbrev Mat := Nat → Nat → Nat

/-- Modelled from the spec: a Schulze ballot of section 3 (the tallying
engine is not part of this repository): a ranking assigning each option
index a sort position, with the caster's voter weight. -/
structure SchulzeBallot where
  ranking : Nat → Nat
  weight : Nat

/-- Modelled from the spec: step 1 of section 4.4 (the tallying engine is
not part of this repository).  d i j is the total weight of the ballots
whose position for option i is strictly smaller than their position for
option j. -/
def prefMatrix (ballots : List SchulzeBallot) : Mat :=
  fun i j =>
    (ballots.map (fun b => if b.ranking i < b.ranking j then b.weight else 0)).sum

/-- Modelled from the spec: step 2 of section 4.4.  The initial strongest
path strength counts only a direct pairwise win. -/
def initialStrength (d : Mat) : Mat :=
  fun i j => if d j i < d i j then d i j else 0

/-- Point update of a strength matrix at one cell. -/
def matSet (p : Mat) (i j : Nat) (v : Nat) : Mat :=
  fun a b => if a = i ∧ b = j then v else p a b

/-- Modelled from the spec: one relaxation of step 3 of section 4.4, for
the intermediate k and the pair i j, guarded by i, j and k being pairwise
distinct. -/
def fwStep (k i j : Nat) (p : Mat) : Mat :=
  if i ≠ j ∧ i ≠ k ∧ j ≠ k then
    matSet p i j (max (p i j) (min (p i k) (p k j)))
  else p

/-- Modelled from the spec: the Floyd-Warshall style widening of step 3 of
section 4.4, three nested loops over the option indices below n. -/
def strongestPaths (n : Nat) (p : Mat) : Mat :=
  (List.range n).foldl (fun q k =>
    (List.range n).foldl (fun q i =>
      (List.range n).foldl (fun q j => fwStep k i j q) q) q) p

/-- Modelled from the spec: the full strongest-path matrix of a ballot
profile over n options, steps 1 to 3 of section 4.4. -/
def schulzeP (n : Nat) (ballots : List SchulzeBallot) : Mat :=
  strongestPaths n (initialStrength (prefMatrix ballots))

/-- Modelled from the spec: step 4 of section 4.4, option i ranks at least
as high as option j iff p i j is at least p j i. -/
def ranksAtLeast (p : Mat) (i j : Nat) : Prop := p j i ≤ p i j

/-- Modelled from the spec: step 4 of section 4.4, two options are tied iff
the two path strengths between them are equal. -/
def tiedOptions (p : Mat) (i j : Nat) : Prop := p i j = p j i

/-- Option c is alone in the top tie-class of the ranking derived from the
strength matrix p over n options: c ranks at least as high as every option
and is tied with none other. -/
def aloneInTopTieClass (n : Nat) (p : Mat) (c : Nat) : Prop :=
  (∀ j, j < n → ranksAtLeast p c j) ∧ ∀ j, j < n → j ≠ c → ¬ tiedOptions p c j

/-- C1 (counterexample): the configuration with numerator 7 and
denominator 3 violates the invariant numerator at most denominator, yet
MajorityModel.Validate accepts it: the model validation checks only that
each field lies between 1 and 2147483645 and never compares the two. -/
theorem majority_validate_ratio_cex :
    MajorityModel.Validate ⟨7, 3⟩ = true ∧ ¬ (7 ≤ 3) := by
  constructor
  · rfl
  · decide

/-- C1 (amended): every majority configuration accepted by
MajorityModel.Validate has numerator and denominator both between 1 and
2147483645; in particular the denominator is positive and a zero
denominator is rejected eagerly, but the invariant numerator at most
denominator is not checked. -/
theorem majority_validate_accepts_bounds (m : MajorityModel)
    (h : MajorityModel.Validate m = true) :
    1 ≤ m.Numerator ∧ m.Numerator ≤ 2147483645 ∧
    1 ≤ m.Denominator ∧ m.Denominator ≤ 2147483645 := by
  unfold MajorityModel.Validate at h
  simp only [Bool.and_eq_true, Bool.or_eq_true, decide_eq_true_eq,
    beq_iff_eq] at h
  omega

/-- Witness for the amended C1 at the configuration 2 over 3. -/
theorem majority_validate_accepts_bounds_witness :
    MajorityModel.Validate ⟨2, 3⟩ = true ∧
    (1 ≤ (2:Nat) ∧ (2:Nat) ≤ 2147483645 ∧
     1 ≤ (3:Nat) ∧ (3:Nat) ≤ 2147483645) :=
  ⟨by decide, majority_validate_accepts_bounds ⟨2, 3⟩ (by decide)⟩

/-- C4 (the code at the failing input): a voter with valid name and slug
and weight 0 is rejected by VoterModel.Validate, because the Required rule
fails on the zero value of uint32; the same voter with weight 1 passes, so
the rejection is due to the zero weight alone.  The claim, the
specification and the database schema (weight smallint with the check
weight at least 0) all treat weight 0 as valid. -/
theorem voter_validate_zero_weight :
    VoterModel.Validate ⟨⟨0⟩, ['a', 'b'], ['a', 'b'], 0⟩ = false ∧
    VoterModel.Validate ⟨⟨0⟩, ['a', 'b'], ['a', 'b'], 1⟩ = true := by
  constructor
  · rfl
  · rfl

/-- C5 (counterexample): the weight 2147483646, which is exactly 2 to the
31 minus 2, is rejected by VoterModel.Validate even with valid name and
slug: the maximum the code accepts is 2147483647 - 2 = 2147483645. -/
theorem voter_weight_max_cex :
    VoterModel.Validate ⟨⟨0⟩, ['a', 'b'], ['a', 'b'], 2147483646⟩ = false ∧
    2147483646 ≤ 2 ^ 31 - 2 := by
  constructor
  · rfl
  · decide

/-- C5 (amended): for a voter whose name and slug pass the field validator
and whose weight is nonzero, VoterModel.Validate accepts exactly the
weights up to 2147483645, that is 2 to the 31 minus 3; every larger weight
is rejected. -/
theorem voter_validate_weight_max (b : BaseModel) (name slug : List Char)
    (w : Nat) (hn : nameAndSlugFieldOk name = true)
    (hs : nameAndSlugFieldOk slug = true) (hw : w ≠ 0) :
    VoterModel.Validate ⟨b, name, slug, w⟩ = true ↔ w ≤ 2147483645 := by
  unfold VoterModel.Validate
  simp [hn, hs, hw]

/-- Witness for the amended C5 at weight 5. -/
theorem voter_validate_weight_max_witness :
    nameAndSlugFieldOk ['a', 'b'] = true ∧ (5:Nat) ≠ 0 ∧
    (VoterModel.Validate ⟨⟨0⟩, ['a', 'b'], ['a', 'b'], 5⟩ = true ↔
      (5:Nat) ≤ 2147483645) :=
  ⟨by decide, by decide,
    voter_validate_weight_max ⟨0⟩ ['a', 'b'] ['a', 'b'] 5
      (by decide) (by decide) (by decide)⟩

/-- C2 (counterexample): with the absolute rule 1 over 2 and all three
weights 0, the cross-multiplication comparison holds (0 is at least 0),
yet IsSatisfied returns false because the total valid weight is 0 — so the
result does not equal the comparison exactly. -/
theorem isSatisfied_exact_cex :
    MajorityRule.IsSatisfied ⟨1, 2, true⟩ 0 0 0 = false ∧
    ((0:Int) * 2 ≥ 1 * 0) := by
  constructor
  · rfl
  · decide

/-- C2 (amended): whenever totalValidWeight is nonzero, IsSatisfied equals
exactly the truth of the integer cross-multiplication achievedWeight times
denominator at least numerator times eligibleWeight for an absolute rule,
respectively numerator times totalValidWeight for a relative rule; at
totalValidWeight 0 it returns false instead. -/
theorem isSatisfied_exact_amended (rule : MajorityRule)
    (a e v : Int) (h : v ≠ 0) :
    rule.IsSatisfied a e v =
      (if rule.absolute then decide (a * rule.denominator ≥ rule.numerator * e)
       else decide (a * rule.denominator ≥ rule.numerator * v)) := by
  unfold MajorityRule.IsSatisfied
  simp [h]

/-- Witness for the amended C2: the absolute rule 2 over 3, achieved 5,
eligible 6, valid 6. -/
theorem isSatisfied_exact_amended_witness :
    (6:Int) ≠ 0 ∧
    MajorityRule.IsSatisfied ⟨2, 3, true⟩ 5 6 6 =
      decide ((5:Int) * 3 ≥ 2 * 6) :=
  ⟨by decide, isSatisfied_exact_amended ⟨2, 3, true⟩ 5 6 6 (by decide)⟩

/-- C3: for every majority rule, absolute or relative, and all achieved and
eligible weights, IsSatisfied is false when the total valid weight is 0:
with no valid votes the rule is never satisfied. -/
theorem isSatisfied_zero_total (rule : MajorityRule) (a e : Int) :
    rule.IsSatisfied a e 0 = false := by
  unfold MajorityRule.IsSatisfied
  simp

/-- C10: for every BaseModel whose ID is already set (not the nil uuid) and
every outcome of the random uuid source, GenerateID returns the nil uuid
together with ErrIDAlreadySet and leaves the model, hence its ID field,
unchanged. -/
theorem generateID_already_set (model : BaseModel)
    (rand : Except RandErr UUIDv) (h : model.ID ≠ uuidNil) :
    model.GenerateID rand = ((uuidNil, some ErrIDAlreadySet), model) := by
  unfold BaseModel.GenerateID
  simp [h]

/-- Witness for C10 at the model with ID 5 and a successful random draw. -/
theorem generateID_already_set_witness :
    (⟨5⟩ : BaseModel).ID ≠ uuidNil ∧
    (⟨5⟩ : BaseModel).GenerateID (Except.ok 7) =
      ((uuidNil, some ErrIDAlreadySet), ⟨5⟩) :=
  ⟨by decide, generateID_already_set ⟨5⟩ (Except.ok 7) (by decide)⟩

theorem digitVal_digitChar (d : Nat) (h : d < 10) :
    digitVal (digitChar d) = some d := by
  interval_cases d <;> rfl

theorem digitChar_ne_slash (d : Nat) (h : d < 10) : digitChar d ≠ '/' := by
  interval_cases d <;> decide

theorem toDecAux_ne_nil (n : Nat) (acc : List Char) : toDecAux n acc ≠ [] := by
  induction n using Nat.strong_induction_on generalizing acc with
  | _ n ih =>
    rw [toDecAux]
    split
    · simp
    · next h => exact ih (n / 10) (Nat.div_lt_self (by omega) (by omega)) _

/-- The weight of the decimal digits toDecAux prepends for n: ten to the
number of digits of n. -/
def pow10 (n : Nat) : Nat :=
  if n < 10 then 10 else 10 * pow10 (n / 10)
decreasing_by exact Nat.div_lt_self (by omega) (by omega)

theorem parseDigitsAux_toDecAux (n : Nat) :
    ∀ acc tail, parseDigitsAux acc (toDecAux n tail) =
      parseDigitsAux (acc * pow10 n + n) tail := by
  induction n using Nat.strong_induction_on with
  | _ n ih =>
    intro acc tail
    rw [toDecAux, pow10]
    by_cases h : n < 10
    · rw [dif_pos h, if_pos h]
      simp only [parseDigitsAux, digitVal_digitChar n h]
    · rw [dif_neg h, if_neg h]
      rw [ih (n / 10) (Nat.div_lt_self (by omega) (by omega)) acc
            (digitChar (n % 10) :: tail)]
      simp only [parseDigitsAux, digitVal_digitChar (n % 10) (by omega)]
      congr 1
      have h1 : acc * (10 * pow10 (n / 10)) = acc * pow10 (n / 10) * 10 := by
        ring
      rw [h1]
      omega

theorem toDecAux_no_slash (n : Nat) :
    ∀ tail, '/' ∉ tail → '/' ∉ toDecAux n tail := by
  induction n using Nat.strong_induction_on with
  | _ n ih =>
    intro tail htail
    rw [toDecAux]
    split
    · next h =>
      intro hmem
      rcases List.mem_cons.mp hmem with hc | hc
      · exact digitChar_ne_slash n h hc.symm
      · exact htail hc
    · next h =>
      refine ih (n / 10) (Nat.div_lt_self (by omega) (by omega)) _ ?_
      intro hmem
      rcases List.mem_cons.mp hmem with hc | hc
      · exact digitChar_ne_slash (n % 10) (by omega) hc.symm
      · exact htail hc

theorem natToDec_no_slash (n : Nat) : '/' ∉ natToDec n :=
  toDecAux_no_slash n [] (by simp)

theorem splitOnSlash_no_slash (s : List Char) (h : '/' ∉ s) :
    splitOnSlash s = [s] := by
  induction s with
  | nil => rfl
  | cons c rest ih =>
    have hc : c ≠ '/' := by
      intro e
      exact h (by simp [e])
    have hrest : '/' ∉ rest := fun hm => h (List.mem_cons_of_mem _ hm)
    simp only [splitOnSlash]
    rw [if_neg hc, ih hrest]

theorem splitOnSlash_append (a b : List Char) (ha : '/' ∉ a) (hb : '/' ∉ b) :
    splitOnSlash (a ++ '/' :: b) = [a, b] := by
  induction a with
  | nil =>
    simp only [List.nil_append, splitOnSlash]
    simp [splitOnSlash_no_slash b hb]
  | cons c a ih =>
    have hc : c ≠ '/' := by
      intro e
      exact ha (by simp [e])
    have ha2 : '/' ∉ a := fun hm => ha (List.mem_cons_of_mem _ hm)
    simp only [List.cons_append, splitOnSlash, List.append_eq]
    rw [if_neg hc, ih ha2]

theorem goParseUint32_natToDec (n : Nat) (h : n < 4294967296) :
    goParseUint32 (natToDec n) = some n := by
  unfold goParseUint32 natToDec
  rw [if_neg (toDecAux_ne_nil n [])]
  rw [parseDigitsAux_toDecAux n 0 []]
  rw [Nat.zero_mul, Nat.zero_add]
  simp only [parseDigitsAux]
  rw [if_pos h]

/-- C8: formatting any majority model whose numerator and denominator are
uint32 values with FormatDBString and parsing the result back with
ParseMajorityModelDBString succeeds and returns a model with the same
numerator and denominator. -/
theorem parse_format_roundtrip (num den : Nat)
    (h1 : num < 4294967296) (h2 : den < 4294967296) :
    ParseMajorityModelDBString (MajorityModel.FormatDBString ⟨num, den⟩) =
      some ⟨num, den⟩ := by
  unfold ParseMajorityModelDBString MajorityModel.FormatDBString
  simp only [splitOnSlash_append _ _ (natToDec_no_slash num)
      (natToDec_no_slash den),
    goParseUint32_natToDec num h1, goParseUint32_natToDec den h2]

/-- Witness for C8 at the model 10 over 3. -/
theorem parse_format_roundtrip_witness :
    (10:Nat) < 4294967296 ∧ (3:Nat) < 4294967296 ∧
    ParseMajorityModelDBString (MajorityModel.FormatDBString ⟨10, 3⟩) =
      some ⟨10, 3⟩ :=
  ⟨by decide, by decide, parse_format_roundtrip 10 3 (by decide) (by decide)⟩

/-- A decimal digit character, the claim's reading of what ParseUint base
10 accepts. -/
def isDigitChar (c : Char) : Bool := decide (48 ≤ c.toNat ∧ c.toNat ≤ 57)

/-- The base-10 value of a digit string, the claim's reading of the number
a literal denotes. -/
def decValue (s : List Char) : Nat :=
  s.foldl (fun acc c => acc * 10 + (c.toNat - 48)) 0

/-- The claim's notion of a base-10 unsigned 32-bit integer literal: a
nonempty string of decimal digits whose value fits in 32 bits. -/
def specUint32Literal (s : List Char) : Prop :=
  s ≠ [] ∧ (∀ c ∈ s, isDigitChar c = true) ∧ decValue s < 4294967296

theorem digitVal_of_digit (c : Char) (hc : isDigitChar c = true) :
    digitVal c = some (c.toNat - 48) := by
  unfold isDigitChar at hc
  simp only [decide_eq_true_eq] at hc
  unfold digitVal
  rw [if_pos hc]

theorem digitVal_of_non_digit (c : Char) (hc : ¬ isDigitChar c = true) :
    digitVal c = none := by
  unfold isDigitChar at hc
  simp only [decide_eq_true_eq] at hc
  unfold digitVal
  rw [if_neg hc]

theorem parseDigitsAux_digits (s : List Char) :
    ∀ acc, (∀ c ∈ s, isDigitChar c = true) →
      parseDigitsAux acc s =
        some (s.foldl (fun a c => a * 10 + (c.toNat - 48)) acc) := by
  induction s with
  | nil =>
    intro acc _
    rfl
  | cons c rest ih =>
    intro acc hall
    have hc : isDigitChar c = true := hall c (by simp)
    simp only [parseDigitsAux, digitVal_of_digit c hc, List.foldl_cons]
    exact ih _ (fun x hx => hall x (by simp [hx]))

theorem parseDigitsAux_non_digit (s : List Char) :
    ∀ acc, (¬ ∀ c ∈ s, isDigitChar c = true) → parseDigitsAux acc s = none := by
  induction s with
  | nil =>
    intro acc h
    exact absurd (by simp) h
  | cons c rest ih =>
    intro acc h
    by_cases hc : isDigitChar c = true
    · have hrest : ¬ ∀ x ∈ rest, isDigitChar x = true := by
        intro hr
        refine h ?_
        intro x hx
        rcases List.mem_cons.mp hx with e | e
        · exact e ▸ hc
        · exact hr x e
      simp only [parseDigitsAux, digitVal_of_digit c hc]
      exact ih _ hrest
    · simp only [parseDigitsAux, digitVal_of_non_digit c hc]

theorem goParseUint32_isSome_iff (s : List Char) :
    (goParseUint32 s).isSome = true ↔ specUint32Literal s := by
  unfold goParseUint32 specUint32Literal
  by_cases hnil : s = []
  · subst hnil
    simp
  · rw [if_neg hnil]
    by_cases hall : ∀ c ∈ s, isDigitChar c = true
    · rw [parseDigitsAux_digits s 0 hall]
      show (if s.foldl (fun a c => a * 10 + (c.toNat - 48)) 0 < 4294967296
          then some (s.foldl (fun a c => a * 10 + (c.toNat - 48)) 0)
          else none).isSome = true ↔ _
      by_cases hlt : s.foldl (fun a c => a * 10 + (c.toNat - 48)) 0 < 4294967296
      · rw [if_pos hlt]
        exact iff_of_true rfl ⟨hnil, hall, hlt⟩
      · rw [if_neg hlt]
        exact iff_of_false (by simp) (fun h => hlt h.2.2)
    · rw [parseDigitsAux_non_digit s 0 hall]
      exact iff_of_false (by simp) (fun h => hall h.2.1)

/-- C9: ParseMajorityModelDBString fails exactly when the input is not two
slash-separated base-10 uint32 literals, and it applies no
majority-invariant check: the strings 5/0 and 7/3 parse without error to a
model with denominator 0, respectively with numerator above denominator. -/
theorem parse_db_string_spec :
    (∀ s : List Char,
      ParseMajorityModelDBString s = none ↔
        ¬ ∃ a b, splitOnSlash s = [a, b] ∧
          specUint32Literal a ∧ specUint32Literal b) ∧
    ParseMajorityModelDBString ['5', '/', '0'] = some ⟨5, 0⟩ ∧
    ParseMajorityModelDBString ['7', '/', '3'] = some ⟨7, 3⟩ := by
  refine ⟨?_, by rfl, by rfl⟩
  intro s
  unfold ParseMajorityModelDBString
  rcases hsplit : splitOnSlash s with _ | ⟨a, _ | ⟨b, _ | ⟨x, xs⟩⟩⟩
  · refine iff_of_true rfl ?_
    rintro ⟨a', b', heq, -, -⟩
    simp at heq
  · refine iff_of_true rfl ?_
    rintro ⟨a', b', heq, -, -⟩
    simp at heq
  · show (match goParseUint32 a, goParseUint32 b with
      | some numerator, some denominator =>
        some (⟨numerator, denominator⟩ : MajorityModel)
      | _, _ => none) = none ↔ _
    rcases hpa : goParseUint32 a with _ | va
    · have ha : ¬ specUint32Literal a := by
        rw [← goParseUint32_isSome_iff]
        simp [hpa]
      refine iff_of_true (by cases goParseUint32 b <;> rfl) ?_
      rintro ⟨a', b', heq, hsa, hsb⟩
      simp only [List.cons.injEq, and_true] at heq
      obtain ⟨rfl, rfl⟩ := heq
      exact ha hsa
    · rcases hpb : goParseUint32 b with _ | vb
      · have hb : ¬ specUint32Literal b := by
          rw [← goParseUint32_isSome_iff]
          simp [hpb]
        refine iff_of_true rfl ?_
        rintro ⟨a', b', heq, hsa, hsb⟩
        simp only [List.cons.injEq, and_true] at heq
        obtain ⟨rfl, rfl⟩ := heq
        exact hb hsb
      · have hsa : specUint32Literal a := by
          rw [← goParseUint32_isSome_iff]
          simp [hpa]
        have hsb : specUint32Literal b := by
          rw [← goParseUint32_isSome_iff]
          simp [hpb]
        refine iff_of_false (by simp) ?_
        intro hno
        exact hno ⟨a, b, rfl, hsa, hsb⟩
  · refine iff_of_true rfl ?_
    rintro ⟨a', b', heq, -, -⟩
    simp at heq

theorem foldl_preserves {α β : Type} (P : α → Prop) (f : α → β → α) :
    ∀ (l : List β) (a : α),
      (∀ x b, b ∈ l → P x → P (f x b)) → P a → P (l.foldl f a) := by
  intro l
  induction l with
  | nil =>
    intro a _ ha
    exact ha
  | cons b t ih =>
    intro a h ha
    simp only [List.foldl_cons]
    exact ih (f a b) (fun x c hc hx => h x c (List.mem_cons_of_mem _ hc) hx)
      (h a b (List.mem_cons_self _ _) ha)

theorem foldl_pointwise_le (f : Mat → Nat → Mat) (l : List Nat)
    (h : ∀ q m, m ∈ l → ∀ a b, q a b ≤ f q m a b) :
    ∀ (p : Mat) (a b : Nat), p a b ≤ (l.foldl f p) a b := by
  intro p
  exact foldl_preserves (fun q => ∀ a b, p a b ≤ q a b) f l p
    (fun x m hm hx a b => le_trans (hx a b) (h x m hm a b))
    (fun a b => le_refl _)

theorem fwStep_le (k i j : Nat) (p : Mat) (a b : Nat) :
    p a b ≤ fwStep k i j p a b := by
  unfold fwStep matSet
  by_cases hg : i ≠ j ∧ i ≠ k ∧ j ≠ k
  · rw [if_pos hg]
    show p a b ≤ if a = i ∧ b = j then max (p i j) (min (p i k) (p k j)) else p a b
    by_cases hab : a = i ∧ b = j
    · rw [if_pos hab]
      obtain ⟨rfl, rfl⟩ := hab
      exact le_max_left _ _
    · rw [if_neg hab]
  · rw [if_neg hg]

theorem fwStep_col_zero (n c k i j : Nat) (hk : k < n) (p : Mat)
    (hp : ∀ x, x < n → x ≠ c → p x c = 0) :
    ∀ x, x < n → x ≠ c → fwStep k i j p x c = 0 := by
  intro x hx hxc
  unfold fwStep matSet
  by_cases hg : i ≠ j ∧ i ≠ k ∧ j ≠ k
  · rw [if_pos hg]
    show (if x = i ∧ c = j then max (p i j) (min (p i k) (p k j)) else p x c) = 0
    by_cases hxc2 : x = i ∧ c = j
    · obtain ⟨rfl, rfl⟩ := hxc2
      rw [if_pos ⟨rfl, rfl⟩]
      have h1 : p x c = 0 := hp x hx hxc
      have h2 : p k c = 0 := hp k hk (Ne.symm hg.2.2)
      omega
    · rw [if_neg hxc2]
      exact hp x hx hxc
  · rw [if_neg hg]
    exact hp x hx hxc

theorem strongestPaths_col_zero (n c : Nat) (p : Mat)
    (hp : ∀ x, x < n → x ≠ c → p x c = 0) :
    ∀ x, x < n → x ≠ c → strongestPaths n p x c = 0 := by
  unfold strongestPaths
  refine foldl_preserves (fun q => ∀ x, x < n → x ≠ c → q x c = 0) _ _ p ?_ hp
  intro q k hk hq
  refine foldl_preserves (fun q => ∀ x, x < n → x ≠ c → q x c = 0) _ _ q ?_ hq
  intro q2 i hi hq2
  refine foldl_preserves (fun q => ∀ x, x < n → x ≠ c → q x c = 0) _ _ q2 ?_ hq2
  intro q3 j hj hq3
  exact fwStep_col_zero n c k i j (List.mem_range.mp hk) q3 hq3

theorem strongestPaths_le (n : Nat) (p : Mat) (a b : Nat) :
    p a b ≤ strongestPaths n p a b := by
  unfold strongestPaths
  refine foldl_pointwise_le _ _ ?_ p a b
  intro q k hk a1 b1
  refine foldl_pointwise_le _ _ ?_ q a1 b1
  intro q2 i hi a2 b2
  refine foldl_pointwise_le _ _ ?_ q2 a2 b2
  intro q3 j hj a3 b3
  exact fwStep_le k i j q3 a3 b3

/-- C7: for every Schulze poll over n options and every list of weighted
ballots, if option c pairwise-beats every other option head-to-head (its
direct preference weight over each other option exceeds the opposite
direction), then the ranking derived from the strongest-path matrix places
c alone in the top tie-class: c ranks at least as high as every option and
is tied with none. -/
theorem schulze_condorcet_alone_top (n : Nat) (ballots : List SchulzeBallot)
    (c : Nat) (hc : c < n)
    (hwin : ∀ j, j < n → j ≠ c →
      prefMatrix ballots j c < prefMatrix ballots c j) :
    aloneInTopTieClass n (schulzeP n ballots) c := by
  have hcol : ∀ x, x < n → x ≠ c → schulzeP n ballots x c = 0 := by
    unfold schulzeP
    apply strongestPaths_col_zero
    intro x hx hxc
    have hw := hwin x hx hxc
    unfold initialStrength
    rw [if_neg (by omega)]
  have hmono : ∀ a b,
      initialStrength (prefMatrix ballots) a b ≤ schulzeP n ballots a b :=
    fun a b => strongestPaths_le n _ a b
  have hpos : ∀ j, j < n → j ≠ c → 0 < schulzeP n ballots c j := by
    intro j hj hjc
    have h1 := hwin j hj hjc
    have h2 : initialStrength (prefMatrix ballots) c j = prefMatrix ballots c j := by
      unfold initialStrength
      rw [if_pos h1]
    have h3 := hmono c j
    rw [h2] at h3
    omega
  constructor
  · intro j hj
    by_cases hjc : j = c
    · subst hjc
      exact le_refl _
    · show schulzeP n ballots j c ≤ schulzeP n ballots c j
      rw [hcol j hj hjc]
      exact Nat.zero_le _
  · intro j hj hjc
    show ¬ schulzeP n ballots c j = schulzeP n ballots j c
    rw [hcol j hj hjc]
    have h4 := hpos j hj hjc
    omega

/-- Witness for C7: two options, one ballot of weight 1 ranking option 0
above option 1; option 0 is a Condorcet winner and ends alone at the top. -/
theorem schulze_condorcet_alone_top_witness :
    aloneInTopTieClass 2 (schulzeP 2 [⟨fun x => x, 1⟩]) 0 := by
  apply schulze_condorcet_alone_top 2 [⟨fun x => x, 1⟩] 0 (by decide)
  intro j hj hjc
  interval_cases j
  · exact absurd rfl hjc
  · decide
